import Mathlib

/-!
# node-crawler: ingestion layer and crawl loop

A shallow embedding of `pkg/apidb/database.go` (`CreateDB`, `InsertCrawledNodes`,
`DropOldNodes`) and of the crawl loop of `cmd/crawler/crawlercmd.go` (`crawlNodes`),
followed by theorems about the merge rule, the ordering of writes inside a batch,
eviction and the one-row-per-identity invariant.

Modelling conventions.

* Go `string` values are Lean `String`s. `strings.Compare` orders strings by their bytes;
  for UTF-8 text that is the order of the code point sequences, which is what
  `stringsCompare` computes.
* `time.Time` is an `Int` (nanoseconds on an absolute time line), `time.Duration` is a
  64-bit signed integer held in an `Int`; the negation in `DropOldNodes` wraps.
* The SQLite driver linked by the program (`modernc.org/sqlite`) binds a `time.Time` as
  text, the output of its `String` method, and SQLite compares such values byte by byte.
  A row keeps the time value written to `last_crawled`; the text that stands for a time
  value in the database is given by the parameter `timeText`, a function of the instant,
  and `deleteOlder` compares those texts.
* The wall clock is a function from the number of readings taken so far to the time read;
  the database state carries that counter, so every `time.Now()` is a fresh reading.
* The `nodes` table is the list of its rows in insertion order. The statements run by the
  code are given their SQLite meaning (`upsertRow`, `deleteOlder`). Failures of the
  database driver itself (`Begin`, `Prepare`, `Exec`, `Commit`) are not modelled.
* `vparser.ParseVersionString`, `crawlerdb.CrawledNode` and `crawler.CrawlRound` are used
  by the code but defined elsewhere; the parser and the round function are parameters, and
  the record types list the fields the code reads.
-/

namespace NodeCrawler

/-! ## Strings and time -/

/-- Lexicographic three-way comparison of two code sequences: `-1`, `0` or `1`. -/
def compareCodes : List Nat → List Nat → Int
  | [], [] => 0
  | [], _ :: _ => -1
  | _ :: _, [] => 1
  | a :: as, b :: bs =>
    if a < b then -1 else if b < a then 1 else compareCodes as bs

/-- Go `strings.Compare(a, b)`. -/
def stringsCompare (a b : String) : Int :=
  compareCodes (a.data.map Char.toNat) (b.data.map Char.toNat)

/-- Reduce an integer to the range of a Go `int64` (two's complement wrap-around). -/
def wrapInt64 (x : Int) : Int :=
  (x + 2 ^ 63) % 2 ^ 64 - 2 ^ 63

/-- Go unary minus on a `time.Duration` (an `int64`). -/
def negDuration (d : Int) : Int :=
  wrapInt64 (-d)

/-- Go `t.Add(d)` on the absolute time line. -/
def timeAdd (t d : Int) : Int :=
  t + d

/-! ## Records -/

/-- The fields of `vparser.Version` that `InsertCrawledNodes` reads. -/
structure Version where
  Major : Int
  Minor : Int
  Patch : Int
  Tag : String
  Build : String
  Date : String
  deriving DecidableEq, Repr

/-- The fields of `vparser.OSInfo` that `InsertCrawledNodes` reads. -/
structure OSInfo where
  Os : String
  Architecture : String
  deriving DecidableEq, Repr

/-- The fields of `vparser.LanguageInfo` that `InsertCrawledNodes` reads. -/
structure LanguageInfo where
  Name : String
  Version : String
  deriving DecidableEq, Repr

/-- The result of `vparser.ParseVersionString`, as far as `InsertCrawledNodes` reads it. -/
structure ParsedInfo where
  Name : String
  Version : Version
  Os : OSInfo
  Language : LanguageInfo
  deriving DecidableEq, Repr

/-- The fields of `crawlerdb.CrawledNode` that `InsertCrawledNodes` reads. -/
structure CrawledNode where
  ID : String
  Now : String
  ClientType : String
  Country : String
  NetworkID : Nat
  ForkID : String
  deriving DecidableEq, Repr

/-- One row of the table `nodes` created by `CreateDB`. -/
structure Row where
  id : String
  name : String
  version_major : Int
  version_minor : Int
  version_patch : Int
  version_tag : String
  version_build : String
  version_date : String
  os_name : String
  os_architecture : String
  language_name : String
  language_version : String
  last_crawled : Int
  country_name : String
  networkid : Nat
  forkid : String
  deriving DecidableEq, Repr

/-- What the code is given from outside: the version parser, the wall clock, and the text
under which the database driver stores and binds a time value. -/
structure Env where
  ParseVersionString : String → Option ParsedInfo
  timeNow : Nat → Int
  timeText : Int → String

/-- The database: the rows of `nodes` and the number of clock readings taken so far. -/
structure DB where
  nodes : List Row
  reads : Nat
  deriving DecidableEq, Repr

/-! ## The SQL statements -/

/-- The first row of the table with the given primary key. -/
def lookup (t : List Row) (id : String) : Option Row :=
  t.find? (fun r => decide (r.id = id))

/-- The `WHERE` clause of the upsert: `name = excluded.name OR excluded.name != "unknown"`.
The table has no column called `unknown`, so SQLite reads the double-quoted word as the
string literal; `name` is the stored value and `excluded.name` the value being written. -/
def updateAllowed (r n : Row) : Bool :=
  decide (r.name = n.name) || decide (n.name ≠ "unknown")

/-- The `DO UPDATE SET` list of the upsert: fifteen columns take the excluded values. -/
def setExcluded (r n : Row) : Row :=
  { r with
    name := n.name
    version_major := n.version_major
    version_minor := n.version_minor
    version_patch := n.version_patch
    version_tag := n.version_tag
    version_build := n.version_build
    version_date := n.version_date
    os_name := n.os_name
    os_architecture := n.os_architecture
    language_name := n.language_name
    language_version := n.language_version
    last_crawled := n.last_crawled
    country_name := n.country_name
    networkid := n.networkid
    forkid := n.forkid }

/-- The statement prepared by `InsertCrawledNodes`:
`INSERT INTO nodes(...) VALUES (...) ON CONFLICT(id) DO UPDATE SET ... WHERE ...`. -/
def upsertRow : List Row → Row → List Row
  | [], n => [n]
  | r :: rs, n =>
    if r.id = n.id then
      (if updateAllowed r n then setExcluded r n else r) :: rs
    else
      r :: upsertRow rs n

/-- The statement prepared by `DropOldNodes`: `DELETE FROM nodes WHERE last_crawled < ?`.
Both sides are texts (the stored column and the bound parameter), so `<` is the byte
order of the texts of the two time values. -/
def deleteOlder (timeText : Int → String) (t : List Row) (oldest : Int) : List Row :=
  t.filter (fun r =>
    !decide (stringsCompare (timeText r.last_crawled) (timeText oldest) < 0))

/-! ## The functions of `pkg/apidb/database.go` -/

/-- `CreateDB`: create the table and empty it. -/
def CreateDB (db : DB) : DB :=
  { db with nodes := [] }

/-- The comparison handed to `sort.SliceStable`. -/
def lessNow (a b : CrawledNode) : Bool :=
  decide (stringsCompare a.Now b.Now < 0)

/-- Go `sort.SliceStable(s, less)`: a stable sort, here by insertion. An element is put in
front of the first later element that is not less than it. -/
def sliceStable (less : CrawledNode → CrawledNode → Bool) (s : List CrawledNode) :
    List CrawledNode :=
  s.insertionSort (fun a b => less b a = false)

/-- The sixteen values bound by `stmt.Exec` for one node. -/
def execArgs (node : CrawledNode) (parsed : ParsedInfo) (now : Int) : Row :=
  { id := node.ID
    name := parsed.Name
    version_major := parsed.Version.Major
    version_minor := parsed.Version.Minor
    version_patch := parsed.Version.Patch
    version_tag := parsed.Version.Tag
    version_build := parsed.Version.Build
    version_date := parsed.Version.Date
    os_name := parsed.Os.Os
    os_architecture := parsed.Os.Architecture
    language_name := parsed.Language.Name
    language_version := parsed.Language.Version
    last_crawled := now
    country_name := node.Country
    networkid := node.NetworkID
    forkid := node.ForkID }

/-- The body of the write loop of `InsertCrawledNodes` for one node. -/
def writeNode (env : Env) (db : DB) (node : CrawledNode) : DB :=
  match env.ParseVersionString node.ClientType with
  | none => db
  | some parsed =>
    { nodes := upsertRow db.nodes (execArgs node parsed (env.timeNow db.reads))
      reads := db.reads + 1 }

/-- `InsertCrawledNodes`: sort the batch by `Now`, then upsert every node that parses. -/
def InsertCrawledNodes (env : Env) (db : DB) (crawledNodes : List CrawledNode) : DB :=
  (sliceStable lessNow crawledNodes).foldl (writeNode env) db

/-- `DropOldNodes`: delete the rows last crawled before `time.Now().Add(-minTimePassed)`. -/
def DropOldNodes (env : Env) (db : DB) (minTimePassed : Int) : DB :=
  let oldest := timeAdd (env.timeNow db.reads) (negDuration minTimePassed)
  { nodes := deleteOlder env.timeText db.nodes oldest
    reads := db.reads + 1 }

/-! ## Sequences of calls on the store -/

/-- One call on the store made by a client of the package. -/
inductive StoreOp where
  | insert (crawledNodes : List CrawledNode)
  | dropOld (minTimePassed : Int)
  deriving DecidableEq, Repr

/-- Run one call on the store. -/
def applyOp (env : Env) (db : DB) : StoreOp → DB
  | StoreOp.insert crawledNodes => InsertCrawledNodes env db crawledNodes
  | StoreOp.dropOld minTimePassed => DropOldNodes env db minTimePassed

/-- Run a sequence of calls on the store, in order. -/
def runOps (env : Env) (db : DB) (ops : List StoreOp) : DB :=
  ops.foldl (applyOp env) db

/-! ## The crawl loop of `cmd/crawler/crawlercmd.go` -/

/-- The part of the state of `crawlNodes` that the crawl loop touches: the variable
`inputSet`, the content of the nodes file (`none` while the file does not exist), and a
record of every call of `CrawlRound` so far: the set passed in and the set returned. -/
structure CrawlState (NodeSet : Type) where
  inputSet : NodeSet
  nodesFileContent : Option NodeSet
  calls : List (NodeSet × NodeSet)
  deriving DecidableEq, Repr

/-- The start of `crawlNodes`: `inputSet` is the zero value `nilSet` unless a nodes file
is named and exists, and then it is what `LoadNodesJSON` reads from it. -/
def loadInputSet {NodeSet : Type} (nilSet : NodeSet) (nodesFile : String)
    (nodesFileContent : Option NodeSet) : NodeSet :=
  match nodesFileContent with
  | some loaded => if nodesFile ≠ "" then loaded else nilSet
  | none => nilSet

/-- One pass through the body of the `for` loop of `crawlNodes`. `CrawlRound k s` is the
set returned by the call of `crawler.CrawlRound` number `k` (counted from 0) when it is
passed `s`; the round function is not part of the embedded files. -/
def crawlLoopBody {NodeSet : Type} (CrawlRound : Nat → NodeSet → NodeSet)
    (nodesFile : String) (st : CrawlState NodeSet) : CrawlState NodeSet :=
  let updatedSet := CrawlRound st.calls.length st.inputSet
  { inputSet := st.inputSet
    nodesFileContent := if nodesFile ≠ "" then some updatedSet else st.nodesFileContent
    calls := st.calls ++ [(st.inputSet, updatedSet)] }

/-- The crawl loop of `crawlNodes`, cut after `rounds` passes (the loop itself never
ends). The set-up of the database, the node key store and the GeoIP reader that precedes
the loop does not touch the state kept here. -/
def crawlNodes {NodeSet : Type} (CrawlRound : Nat → NodeSet → NodeSet) (nilSet : NodeSet)
    (nodesFile : String) (nodesFileContent : Option NodeSet) (rounds : Nat) :
    CrawlState NodeSet :=
  Nat.iterate (crawlLoopBody CrawlRound nodesFile) rounds
    { inputSet := loadInputSet nilSet nodesFile nodesFileContent
      nodesFileContent := nodesFileContent
      calls := [] }

/-! ## Vocabulary of the statements -/

/-- Record `a` may stand before record `b` in a batch sorted by `Now`. -/
def notAfter (a b : CrawledNode) : Prop :=
  stringsCompare a.Now b.Now ≤ 0

instance : DecidableRel notAfter := fun a b => by unfold notAfter; infer_instance

/-- A row with its `last_crawled` column blanked, to compare rows in all other columns. -/
def withoutLastCrawled (r : Row) : Row :=
  { r with last_crawled := 0 }

/-! ## Sample data for concrete instances -/

/-- The parse of the client string of the specification's end-to-end scenario. -/
def gethInfo : ParsedInfo :=
  { Name := "Geth"
    Version := { Major := 1, Minor := 10, Patch := 8, Tag := "stable", Build := "", Date := "" }
    Os := { Os := "linux", Architecture := "amd64" }
    Language := { Name := "go", Version := "1.17" } }

/-- A parse that carries the sentinel name together with version and OS data. -/
def unknownInfo : ParsedInfo :=
  { Name := "unknown"
    Version := { Major := 2, Minor := 0, Patch := 1, Tag := "", Build := "", Date := "" }
    Os := { Os := "windows", Architecture := "x86_64" }
    Language := { Name := "", Version := "" } }

/-- A sample parser, used to instantiate the parser parameter at concrete inputs: it knows
one client string, maps one string to the sentinel name and rejects everything else. -/
def sampleParse (s : String) : Option ParsedInfo :=
  if s = "Geth/v1.10.8-stable/linux-amd64/go1.17" then some gethInfo
  else if s = "mystery/v2.0.1/windows-x86_64" then some unknownInfo
  else none

/-- A sample text for time values: twenty decimal digits, so that from time 0 on the byte
order of the texts is the order of the times. -/
def decimalText (t : Int) : String :=
  String.mk (List.replicate (20 - (Nat.toDigits 10 t.toNat).length) '0'
    ++ Nat.toDigits 10 t.toNat)

/-- A sample environment: the sample parser, a clock that reads 1000, 1001, ... and the
decimal text of time values. -/
def sampleEnv : Env :=
  { ParseVersionString := sampleParse
    timeNow := fun k => 1000 + k
    timeText := decimalText }

/-- A sample observation of node `X` with the given `Now` and country. -/
def gethNode (now country : String) : CrawledNode :=
  { ID := "X"
    Now := now
    ClientType := "Geth/v1.10.8-stable/linux-amd64/go1.17"
    Country := country
    NetworkID := 1
    ForkID := "fc64ec04" }

/-- A sample observation of node `X` whose client string parses to the sentinel name. -/
def mysteryNode : CrawledNode :=
  { ID := "X"
    Now := "2021-10-05 12:00:00"
    ClientType := "mystery/v2.0.1/windows-x86_64"
    Country := "FR"
    NetworkID := 1
    ForkID := "fc64ec04" }

/-- A sample observation of node `X` whose client string does not parse. -/
def garbledNode : CrawledNode :=
  { ID := "X"
    Now := "2021-10-05 12:00:00"
    ClientType := "%%%"
    Country := "FR"
    NetworkID := 1
    ForkID := "fc64ec04" }

/-- A sample stored row for node `X` with a known client name. -/
def besuRow : Row :=
  { id := "X"
    name := "Besu"
    version_major := 21
    version_minor := 7
    version_patch := 4
    version_tag := ""
    version_build := ""
    version_date := ""
    os_name := "linux"
    os_architecture := "x86_64"
    language_name := "java"
    language_version := "11"
    last_crawled := 500
    country_name := "DE"
    networkid := 1
    forkid := "fc64ec04" }

/-- The text of Go's `Time.String` for six time values of one process running in the zone
Europe/Berlin on 31 October 2021, the night the clocks go back: at 01:00:00 UTC local time
steps from 03:00 CEST (`+0200`) to 02:00 CET (`+0100`). The process started at 00:48:20 UTC,
which fixes the monotonic reading `m=` that `String` appends. In order of the instants
(nanoseconds since 1970-01-01 00:00:00 UTC):

* 00:30:00.004 UTC, reached as `Add(-1h)` from 01:30:00.004 UTC;
* 00:50:00.5 UTC, a clock reading;
* 01:10:00.25 UTC, reached as `Add(-1h)` from 02:10:00.25 UTC;
* 01:30:00.001 UTC, 01:30:00.004 UTC and 02:10:00.25 UTC, clock readings.

Other time values are not needed and get the empty text. -/
def berlinText (t : Int) : String :=
  if t = 1635640200004000000 then "2021-10-31 02:30:00.004 +0200 CEST m=-1099.996000000"
  else if t = 1635641400500000000 then "2021-10-31 02:50:00.5 +0200 CEST m=+100.500000000"
  else if t = 1635642600250000000 then "2021-10-31 02:10:00.25 +0100 CET m=+1300.250000000"
  else if t = 1635643800001000000 then "2021-10-31 02:30:00.001 +0100 CET m=+2500.001000000"
  else if t = 1635643800004000000 then "2021-10-31 02:30:00.004 +0100 CET m=+2500.004000000"
  else if t = 1635646200250000000 then "2021-10-31 03:10:00.25 +0100 CET m=+4900.250000000"
  else ""

/-- The environment of that process: its first clock reading is 01:30:00.004 UTC, the
later ones are 02:10:00.25 UTC. -/
def berlinEnv : Env :=
  { ParseVersionString := sampleParse
    timeNow := fun k => if k = 0 then 1635643800004000000 else 1635646200250000000
    timeText := berlinText }

/-- A row of node `X` last crawled at 01:30:00.001 UTC. -/
def freshRow : Row :=
  { besuRow with last_crawled := 1635643800001000000 }

/-- A row of node `Y` last crawled at 00:50:00.5 UTC. -/
def staleRow : Row :=
  { besuRow with id := "Y", last_crawled := 1635641400500000000 }

/-- One hour as a `time.Duration`, in nanoseconds. -/
def oneHour : Int :=
  3600000000000

/-- A sample round function on sets held as lists: round `k` surfaces the new peer `k + 2`. -/
def sampleRound (k : Nat) (s : List Nat) : List Nat :=
  s ++ [k + 2]

/-! ## Facts about string comparison -/

theorem compareCodes_swap : ∀ a b : List Nat, compareCodes b a = - compareCodes a b
  | [], [] => by simp [compareCodes]
  | [], _ :: _ => by simp [compareCodes]
  | _ :: _, [] => by simp [compareCodes]
  | x :: xs, y :: ys => by
    have ih := compareCodes_swap xs ys
    simp only [compareCodes]
    by_cases h1 : x < y
    · have h2 : ¬ y < x := by omega
      simp [h1, h2]
    · by_cases h2 : y < x
      · simp [h1, h2]
      · simp [h1, h2, ih]

theorem compareCodes_eq_zero : ∀ a b : List Nat, compareCodes a b = 0 ↔ a = b
  | [], [] => by simp [compareCodes]
  | [], _ :: _ => by simp [compareCodes]
  | _ :: _, [] => by simp [compareCodes]
  | x :: xs, y :: ys => by
    have ih := compareCodes_eq_zero xs ys
    simp only [compareCodes]
    by_cases h1 : x < y
    · simp [h1]; omega
    · by_cases h2 : y < x
      · simp [h1, h2]; omega
      · have : x = y := by omega
        simp [h1, h2, ih, this]

theorem compareCodes_trans : ∀ a b c : List Nat,
    compareCodes a b ≤ 0 → compareCodes b c ≤ 0 → compareCodes a c ≤ 0
  | [], _, [] => by simp [compareCodes]
  | [], _, _ :: _ => by simp [compareCodes]
  | _ :: _, [], _ => by simp [compareCodes]
  | _ :: _, _ :: _, [] => by simp [compareCodes]
  | x :: xs, y :: ys, z :: zs => by
    have ih := compareCodes_trans xs ys zs
    simp only [compareCodes]
    intro h1 h2
    split_ifs at h1 h2 ⊢ <;> omega

theorem stringsCompare_swap (a b : String) : stringsCompare b a = - stringsCompare a b :=
  compareCodes_swap _ _

theorem toNat_injective : Function.Injective Char.toNat := by
  intro c d h
  apply Char.ext
  exact UInt32.ext (by simpa [Char.toNat] using h)

theorem stringsCompare_eq_zero (a b : String) : stringsCompare a b = 0 ↔ a = b := by
  unfold stringsCompare
  rw [compareCodes_eq_zero, (List.map_injective_iff.2 toNat_injective).eq_iff]
  exact String.ext_iff.symm

theorem stringsCompare_trans (a b c : String) :
    stringsCompare a b ≤ 0 → stringsCompare b c ≤ 0 → stringsCompare a c ≤ 0 :=
  compareCodes_trans _ _ _

/-! ## Facts about the stable sort -/

theorem lessNow_eq_false (a b : CrawledNode) : lessNow b a = false ↔ notAfter a b := by
  unfold lessNow notAfter
  rw [stringsCompare_swap a.Now b.Now]
  simp

theorem sortRel_total : IsTotal CrawledNode (fun a b => lessNow b a = false) :=
  ⟨fun a b => by
    simp only [lessNow_eq_false]
    unfold notAfter
    rw [stringsCompare_swap a.Now b.Now]
    omega⟩

theorem sortRel_trans : IsTrans CrawledNode (fun a b => lessNow b a = false) :=
  ⟨fun a b c => by
    simp only [lessNow_eq_false]
    exact stringsCompare_trans _ _ _⟩

theorem sliceStable_perm (s : List CrawledNode) : (sliceStable lessNow s).Perm s :=
  List.perm_insertionSort _ s

theorem sliceStable_pairwise (s : List CrawledNode) :
    (sliceStable lessNow s).Pairwise notAfter := by
  haveI := sortRel_total
  haveI := sortRel_trans
  have h := List.sorted_insertionSort (fun a b : CrawledNode => lessNow b a = false) s
  exact List.Pairwise.imp (fun {a b} hab => (lessNow_eq_false a b).1 hab) h

theorem sliceStable_filter (s : List CrawledNode) (p : CrawledNode → Bool)
    (hp : ∀ a b, p a = true → p b = true → a.Now = b.Now) :
    (sliceStable lessNow s).filter p = s.filter p := by
  have hsub : List.Sublist (s.filter p) (sliceStable lessNow s) := by
    apply List.sublist_insertionSort
    · have hall : ∀ x ∈ s.filter p, p x = true := fun x hx => (List.mem_filter.1 hx).2
      refine List.Pairwise.imp_of_mem (R := fun _ _ => True) ?_
        (List.pairwise_of_forall (fun _ _ => trivial))
      intro a b ha hb _
      rw [lessNow_eq_false]
      unfold notAfter
      rw [hp a b (hall a ha) (hall b hb), (stringsCompare_eq_zero _ _).2 rfl]
    · exact List.filter_sublist s
  have hsub2 : List.Sublist (s.filter p) ((sliceStable lessNow s).filter p) := by
    have := hsub.filter p
    simpa [List.filter_filter] using this
  have hlen : ((sliceStable lessNow s).filter p).length = (s.filter p).length :=
    ((sliceStable_perm s).filter p).length_eq
  exact (hsub2.eq_of_length hlen.symm).symm

theorem rel_getLast_of_pairwise {α : Type} {R : α → α → Prop} {l : List α} {x y : α}
    (h : l.Pairwise R) (hx : x ∈ l) (hy : l.getLast? = some y) : x = y ∨ R x y := by
  obtain ⟨ys, rfl⟩ := List.getLast?_eq_some_iff.1 hy
  rcases List.mem_append.1 hx with hx | hx
  · exact Or.inr ((List.pairwise_append.1 h).2.2 x hx y (List.mem_singleton.2 rfl))
  · exact Or.inl (List.mem_singleton.1 hx)

/-! ## The upsert statement -/

theorem setExcluded_eq (r n : Row) (h : r.id = n.id) : setExcluded r n = n := by
  cases r; cases n
  simp only [setExcluded] at *
  simp_all

theorem setExcluded_id (r n : Row) : (setExcluded r n).id = r.id := rfl

theorem updateAllowed_iff (r n : Row) :
    updateAllowed r n = true ↔ (r.name = n.name ∨ n.name ≠ "unknown") := by
  simp [updateAllowed]

theorem lookup_upsertRow_self (t : List Row) (n : Row) :
    lookup (upsertRow t n) n.id =
      match lookup t n.id with
      | none => some n
      | some r => if updateAllowed r n then some n else some r := by
  induction t with
  | nil => simp [upsertRow, lookup]
  | cons r rs ih =>
    unfold lookup at ih ⊢
    by_cases h : r.id = n.id
    · by_cases ha : updateAllowed r n = true
      · simp [upsertRow, h, ha, setExcluded_eq r n h]
      · simp [upsertRow, h, ha]
    · simp [upsertRow, h, List.find?_cons, ih]

theorem lookup_upsertRow_other (t : List Row) (n : Row) (id : String) (h : id ≠ n.id) :
    lookup (upsertRow t n) id = lookup t id := by
  induction t with
  | nil => simp [upsertRow, lookup, List.find?_cons, Ne.symm h]
  | cons r rs ih =>
    unfold lookup at ih ⊢
    by_cases hr : r.id = n.id
    · have hne : ¬ r.id = id := fun e => h (e.symm.trans hr)
      by_cases ha : updateAllowed r n = true
      · simp [upsertRow, hr, ha, List.find?_cons, setExcluded_id, Ne.symm h]
      · simp [upsertRow, hr, ha, List.find?_cons, Ne.symm h]
    · by_cases hi : r.id = id
      · subst hi
        simp [upsertRow, hr, List.find?_cons]
      · simp [upsertRow, hr, List.find?_cons, hi, ih]

theorem upsertRow_of_lookup_none (t : List Row) (n : Row) (h : lookup t n.id = none) :
    upsertRow t n = t ++ [n] := by
  induction t with
  | nil => rfl
  | cons r rs ih =>
    unfold lookup at ih h
    by_cases hr : r.id = n.id
    · simp [List.find?_cons, hr] at h
    · simp only [List.find?_cons, hr, decide_False] at h
      simp [upsertRow, hr, ih h]

theorem upsertRow_of_rejected (t : List Row) (n r : Row) (h : lookup t n.id = some r)
    (hr : updateAllowed r n = false) : upsertRow t n = t := by
  induction t with
  | nil => simp [lookup] at h
  | cons a rs ih =>
    unfold lookup at ih h
    by_cases ha : a.id = n.id
    · simp only [List.find?_cons, ha, decide_True, Option.some.injEq] at h
      subst h
      simp [upsertRow, ha, hr]
    · simp only [List.find?_cons, ha, decide_False] at h
      simp [upsertRow, ha, ih h]

theorem lookup_upsertRow_of_allowed (t : List Row) (n : Row)
    (h : ∀ r, lookup t n.id = some r → updateAllowed r n = true) :
    lookup (upsertRow t n) n.id = some n := by
  rw [lookup_upsertRow_self]
  cases hl : lookup t n.id with
  | none => rfl
  | some r => simp [h r hl]

theorem ids_upsertRow (t : List Row) (n : Row) :
    (upsertRow t n).map Row.id =
      if n.id ∈ t.map Row.id then t.map Row.id else t.map Row.id ++ [n.id] := by
  induction t with
  | nil => simp [upsertRow]
  | cons r rs ih =>
    by_cases hr : r.id = n.id
    · by_cases ha : updateAllowed r n = true
      · simp [upsertRow, hr, ha, setExcluded_id]
      · simp [upsertRow, hr, ha]
    · have hne : ¬ n.id = r.id := fun e => hr e.symm
      simp only [upsertRow, hr, if_false, List.map_cons, ih, List.mem_cons, hne, false_or]
      split_ifs <;> simp

/-! ## The write loop on short batches -/

theorem InsertCrawledNodes_singleton (env : Env) (db : DB) (o : CrawledNode) :
    InsertCrawledNodes env db [o] = writeNode env db o := rfl

theorem sliceStable_pair (a b : CrawledNode) :
    sliceStable lessNow [a, b] = if lessNow b a = false then [a, b] else [b, a] := rfl

theorem writeNode_some (env : Env) (db : DB) (o : CrawledNode) (p : ParsedInfo)
    (h : env.ParseVersionString o.ClientType = some p) :
    writeNode env db o =
      { nodes := upsertRow db.nodes (execArgs o p (env.timeNow db.reads))
        reads := db.reads + 1 } := by
  simp [writeNode, h]

theorem writeNode_none (env : Env) (db : DB) (o : CrawledNode)
    (h : env.ParseVersionString o.ClientType = none) : writeNode env db o = db := by
  simp [writeNode, h]

/-! ## The merge rule and the order of writes -/

/-- C1: the merge rule of the upsert statement. When a row `r` with the key of the new
record `n` is stored and `r.name = n.name` or `n.name` is not `"unknown"`, the stored row
becomes exactly `n`; when neither holds the table is left as it was; when no row has that
key, `n` is appended as it is. Rows with other keys are never touched, and a call of
`InsertCrawledNodes` on a one-record batch runs this statement on the values bound for
that record if its client string parses, and runs nothing otherwise. -/
theorem upsertRow_merge_rule (t : List Row) (n : Row) :
    (∀ r, lookup t n.id = some r → (r.name = n.name ∨ n.name ≠ "unknown") →
        lookup (upsertRow t n) n.id = some n)
    ∧ (∀ r, lookup t n.id = some r → ¬ (r.name = n.name ∨ n.name ≠ "unknown") →
        upsertRow t n = t)
    ∧ (lookup t n.id = none → upsertRow t n = t ++ [n])
    ∧ (∀ id, id ≠ n.id → lookup (upsertRow t n) id = lookup t id)
    ∧ (∀ (env : Env) (reads : Nat) (node : CrawledNode),
        (InsertCrawledNodes env { nodes := t, reads := reads } [node]).nodes =
          match env.ParseVersionString node.ClientType with
          | none => t
          | some parsed => upsertRow t (execArgs node parsed (env.timeNow reads))) := by
  refine ⟨?_, ?_, upsertRow_of_lookup_none t n, lookup_upsertRow_other t n, ?_⟩
  · intro r hr hok
    rw [lookup_upsertRow_self, hr]
    simp [(updateAllowed_iff r n).2 hok]
  · intro r hr hno
    apply upsertRow_of_rejected t n r hr
    cases hu : updateAllowed r n with
    | false => rfl
    | true => exact absurd ((updateAllowed_iff r n).1 hu) hno
  · intro env reads node
    rw [InsertCrawledNodes_singleton]
    unfold writeNode
    cases env.ParseVersionString node.ClientType <;> rfl

/-- C1, at concrete rows: the sample row of node `X` named `Besu` takes the values of a
`Geth` record, keeps its own values against a record named `unknown`, and a record for a
fresh key is appended. -/
theorem upsertRow_merge_rule_witness :
    lookup (upsertRow [besuRow] (execArgs (gethNode "1" "US") gethInfo 7)) "X"
        = some (execArgs (gethNode "1" "US") gethInfo 7)
    ∧ upsertRow [besuRow] (execArgs mysteryNode unknownInfo 7) = [besuRow]
    ∧ upsertRow [] (execArgs mysteryNode unknownInfo 7)
        = [] ++ [execArgs mysteryNode unknownInfo 7] :=
  ⟨(upsertRow_merge_rule [besuRow] (execArgs (gethNode "1" "US") gethInfo 7)).1
      besuRow (by decide) (by decide),
   (upsertRow_merge_rule [besuRow] (execArgs mysteryNode unknownInfo 7)).2.1
      besuRow (by decide) (by decide),
   (upsertRow_merge_rule [] (execArgs mysteryNode unknownInfo 7)).2.2.1 (by decide)⟩

/-- C2: the write loop of `InsertCrawledNodes` runs over the stably sorted batch. That
sequence is a permutation of the input, every record's `Now` is at most the `Now` of the
next one (and of every later one), the records carrying any one `Now` value stand in their
input order, and for every input record the last record of the same node in the sequence
has a `Now` that is at least as large. -/
theorem InsertCrawledNodes_write_order (env : Env) (db : DB) (batch : List CrawledNode) :
    InsertCrawledNodes env db batch = (sliceStable lessNow batch).foldl (writeNode env) db
    ∧ (sliceStable lessNow batch).Perm batch
    ∧ (sliceStable lessNow batch).Chain' (fun a b => stringsCompare a.Now b.Now ≤ 0)
    ∧ (sliceStable lessNow batch).Pairwise (fun a b => stringsCompare a.Now b.Now ≤ 0)
    ∧ (∀ now : String,
        (sliceStable lessNow batch).filter (fun x => decide (x.Now = now))
          = batch.filter (fun x => decide (x.Now = now)))
    ∧ (∀ x ∈ batch, ∃ y,
        ((sliceStable lessNow batch).filter (fun z => decide (z.ID = x.ID))).getLast? = some y
          ∧ stringsCompare x.Now y.Now ≤ 0) := by
  have hpw := sliceStable_pairwise batch
  refine ⟨rfl, sliceStable_perm batch, List.Pairwise.chain' hpw, hpw, ?_, ?_⟩
  · intro now
    apply sliceStable_filter
    intro a b ha hb
    simp only [decide_eq_true_eq] at ha hb
    rw [ha, hb]
  · intro x hx
    have hmem : x ∈ (sliceStable lessNow batch).filter (fun z => decide (z.ID = x.ID)) :=
      List.mem_filter.2 ⟨(sliceStable_perm batch).mem_iff.2 hx, by simp⟩
    cases hlast : ((sliceStable lessNow batch).filter
        (fun z => decide (z.ID = x.ID))).getLast? with
    | none =>
      rw [List.getLast?_eq_none_iff] at hlast
      rw [hlast] at hmem
      exact absurd hmem (List.not_mem_nil x)
    | some y =>
      refine ⟨y, rfl, ?_⟩
      rcases rel_getLast_of_pairwise (hpw.filter _) hmem hlast with h | h
      · rw [h]
        exact le_of_eq ((stringsCompare_eq_zero _ _).2 rfl)
      · exact h

/-! ## Two observations of one node -/

theorem lookup_upsertRow_of_known (t : List Row) (n : Row) (h : n.name ≠ "unknown") :
    lookup (upsertRow t n) n.id = some n :=
  lookup_upsertRow_of_allowed t n (fun r _ => (updateAllowed_iff r n).2 (Or.inr h))

/-- C3, the claim fails at the specification's own pair of timestamps: with `Now = "10"`
for the later observation and `Now = "5"` for the earlier one, both parsing to `Geth`,
`strings.Compare` puts `"10"` first, so in either input order the row ends with the
values of the earlier observation (country `US`), not of the later one (country `DE`). -/
theorem monotonic_merge_counterexample :
    sampleEnv.ParseVersionString (gethNode "10" "DE").ClientType = some gethInfo
    ∧ sampleEnv.ParseVersionString (gethNode "5" "US").ClientType = some gethInfo
    ∧ gethInfo.Name ≠ "unknown"
    ∧ stringsCompare "10" "5" < 0
    ∧ (lookup (InsertCrawledNodes sampleEnv { nodes := [], reads := 0 }
          [gethNode "10" "DE", gethNode "5" "US"]).nodes "X").map Row.country_name
        = some "US"
    ∧ (lookup (InsertCrawledNodes sampleEnv { nodes := [], reads := 0 }
          [gethNode "5" "US", gethNode "10" "DE"]).nodes "X").map Row.country_name
        = some "US"
    ∧ (lookup (InsertCrawledNodes sampleEnv { nodes := [], reads := 0 }
          [gethNode "10" "DE", gethNode "5" "US"]).nodes "X").map Row.country_name
        ≠ some (gethNode "10" "DE").Country := by
  decide

/-- C3, amended: if two observations of one node both parse, the first to a name other
than `"unknown"`, and the `Now` string of the first is greater than that of the second
under `strings.Compare`, then `InsertCrawledNodes` leaves the same database for the batch
in either order, and the row of the node holds the values bound for the first
observation: its parsed identity, country, network id and fork id. -/
theorem InsertCrawledNodes_greater_Now_wins (env : Env) (db : DB) (o1 o2 : CrawledNode)
    (p1 p2 : ParsedInfo) (hid : o1.ID = o2.ID)
    (h1 : env.ParseVersionString o1.ClientType = some p1)
    (h2 : env.ParseVersionString o2.ClientType = some p2)
    (hn1 : p1.Name ≠ "unknown")
    (hlt : 0 < stringsCompare o1.Now o2.Now) :
    InsertCrawledNodes env db [o1, o2] = InsertCrawledNodes env db [o2, o1]
    ∧ lookup (InsertCrawledNodes env db [o1, o2]).nodes o2.ID
        = some (execArgs o1 p1 (env.timeNow (db.reads + 1))) := by
  have hswap := stringsCompare_swap o1.Now o2.Now
  have hs1 : sliceStable lessNow [o1, o2] = [o2, o1] := by
    rw [sliceStable_pair]
    have : lessNow o2 o1 = true := by
      unfold lessNow
      simp only [decide_eq_true_eq]
      omega
    simp [this]
  have hs2 : sliceStable lessNow [o2, o1] = [o2, o1] := by
    rw [sliceStable_pair]
    have : lessNow o1 o2 = false := by
      unfold lessNow
      simp only [decide_eq_false_iff_not]
      omega
    simp [this]
  have hrun : InsertCrawledNodes env db [o1, o2] = writeNode env (writeNode env db o2) o1 := by
    unfold InsertCrawledNodes
    rw [hs1]
    rfl
  refine ⟨?_, ?_⟩
  · rw [hrun]
    unfold InsertCrawledNodes
    rw [hs2]
    rfl
  · rw [hrun, writeNode_some env db o2 p2 h2, writeNode_some env _ o1 p1 h1, ← hid]
    exact lookup_upsertRow_of_known _ (execArgs o1 p1 _) hn1

/-- C3, amended, at a concrete pair: `Now = "10"` against `Now = "05"`. -/
theorem InsertCrawledNodes_greater_Now_wins_witness :
    InsertCrawledNodes sampleEnv { nodes := [besuRow], reads := 0 }
        [gethNode "10" "DE", gethNode "05" "US"]
      = InsertCrawledNodes sampleEnv { nodes := [besuRow], reads := 0 }
        [gethNode "05" "US", gethNode "10" "DE"]
    ∧ lookup (InsertCrawledNodes sampleEnv { nodes := [besuRow], reads := 0 }
        [gethNode "10" "DE", gethNode "05" "US"]).nodes (gethNode "05" "US").ID
      = some (execArgs (gethNode "10" "DE") gethInfo (sampleEnv.timeNow (0 + 1))) :=
  InsertCrawledNodes_greater_Now_wins sampleEnv { nodes := [besuRow], reads := 0 }
    (gethNode "10" "DE") (gethNode "05" "US") gethInfo gethInfo rfl (by decide) (by decide)
    (by decide) (by decide)

/-- C4, the claim fails: the later observation (`Now` ending in `12:00:10`, country `DE`)
is ingested first and the earlier one (`12:00:05`, country `US`) in a second call; both are
accepted, and the row ends with the values of the earlier observation. In the opposite
arrival order it ends with those of the later one, so the result follows arrival order. -/
theorem cross_batch_recency_counterexample :
    0 < stringsCompare "2021-10-05 12:00:10" "2021-10-05 12:00:05"
    ∧ (lookup (InsertCrawledNodes sampleEnv
          (InsertCrawledNodes sampleEnv { nodes := [], reads := 0 }
            [gethNode "2021-10-05 12:00:10" "DE"])
          [gethNode "2021-10-05 12:00:05" "US"]).nodes "X").map Row.country_name
        = some "US"
    ∧ (lookup (InsertCrawledNodes sampleEnv
          (InsertCrawledNodes sampleEnv { nodes := [], reads := 0 }
            [gethNode "2021-10-05 12:00:10" "DE"])
          [gethNode "2021-10-05 12:00:05" "US"]).nodes "X").map Row.country_name
        ≠ some (gethNode "2021-10-05 12:00:10" "DE").Country
    ∧ (lookup (InsertCrawledNodes sampleEnv
          (InsertCrawledNodes sampleEnv { nodes := [], reads := 0 }
            [gethNode "2021-10-05 12:00:05" "US"])
          [gethNode "2021-10-05 12:00:10" "DE"]).nodes "X").map Row.country_name
        = some "DE" := by
  decide

/-- C4, amended: across calls the later call wins. If two observations of one node are
ingested by two successive calls of `InsertCrawledNodes`, and each is accepted by the merge
rule when it is written, the row of the node then holds the values bound for the
observation of the second call, whatever the two `Now` strings are. -/
theorem InsertCrawledNodes_later_call_wins (env : Env) (db : DB) (o1 o2 : CrawledNode)
    (p1 p2 : ParsedInfo) (hid : o1.ID = o2.ID)
    (h1 : env.ParseVersionString o1.ClientType = some p1)
    (h2 : env.ParseVersionString o2.ClientType = some p2)
    (hacc1 : ∀ r, lookup db.nodes o1.ID = some r → r.name = p1.Name ∨ p1.Name ≠ "unknown")
    (hacc2 : p1.Name = p2.Name ∨ p2.Name ≠ "unknown") :
    lookup (InsertCrawledNodes env (InsertCrawledNodes env db [o1]) [o2]).nodes o1.ID
      = some (execArgs o2 p2 (env.timeNow (db.reads + 1))) := by
  rw [InsertCrawledNodes_singleton, InsertCrawledNodes_singleton,
    writeNode_some env db o1 p1 h1, writeNode_some env _ o2 p2 h2]
  have hfirst : lookup (upsertRow db.nodes (execArgs o1 p1 (env.timeNow db.reads))) o1.ID
      = some (execArgs o1 p1 (env.timeNow db.reads)) :=
    lookup_upsertRow_of_allowed db.nodes (execArgs o1 p1 (env.timeNow db.reads))
      (fun r hr => (updateAllowed_iff r _).2 (hacc1 r hr))
  have hkey : o1.ID = (execArgs o2 p2 (env.timeNow (db.reads + 1))).id := hid
  rw [hkey]
  apply lookup_upsertRow_of_allowed
  intro r hr
  have hr2 : lookup (upsertRow db.nodes (execArgs o1 p1 (env.timeNow db.reads))) o1.ID
      = some r := by rw [hkey]; exact hr
  rw [hfirst] at hr2
  cases hr2
  exact (updateAllowed_iff _ _).2 hacc2

/-- C4, amended, at the concrete pair of the counterexample. -/
theorem InsertCrawledNodes_later_call_wins_witness :
    lookup (InsertCrawledNodes sampleEnv
        (InsertCrawledNodes sampleEnv { nodes := [besuRow], reads := 0 }
          [gethNode "2021-10-05 12:00:10" "DE"])
        [gethNode "2021-10-05 12:00:05" "US"]).nodes (gethNode "2021-10-05 12:00:10" "DE").ID
      = some (execArgs (gethNode "2021-10-05 12:00:05" "US") gethInfo
          (sampleEnv.timeNow (0 + 1))) :=
  InsertCrawledNodes_later_call_wins sampleEnv { nodes := [besuRow], reads := 0 }
    (gethNode "2021-10-05 12:00:10" "DE") (gethNode "2021-10-05 12:00:05" "US")
    gethInfo gethInfo rfl (by decide) (by decide) (by decide) (by decide)

/-! ## Observations that the guard turns away -/

theorem updateAllowed_of_unknown (r n : Row) (hname : r.name ≠ "unknown")
    (hunk : n.name = "unknown") : updateAllowed r n = false := by
  cases hu : updateAllowed r n with
  | false => rfl
  | true =>
    rcases (updateAllowed_iff r n).1 hu with h | h
    · exact absurd (h.trans hunk) hname
    · exact absurd hunk h

theorem writeNode_lookup_of_weak (env : Env) (db : DB) (o : CrawledNode) (id : String)
    (r : Row) (hr : lookup db.nodes id = some r) (hname : r.name ≠ "unknown")
    (hweak : o.ID = id → env.ParseVersionString o.ClientType = none
      ∨ ∃ p, env.ParseVersionString o.ClientType = some p ∧ p.Name = "unknown") :
    lookup (writeNode env db o).nodes id = some r := by
  cases hp : env.ParseVersionString o.ClientType with
  | none => rw [writeNode_none env db o hp]; exact hr
  | some p =>
    rw [writeNode_some env db o p hp]
    by_cases hid : o.ID = id
    · have hunk : p.Name = "unknown" := by
        rcases hweak hid with h | ⟨q, hq, hqn⟩
        · rw [hp] at h; cases h
        · rw [hp] at hq; cases hq; exact hqn
      have hrej : updateAllowed r (execArgs o p (env.timeNow db.reads)) = false :=
        updateAllowed_of_unknown r _ hname hunk
      have hr2 : lookup db.nodes (execArgs o p (env.timeNow db.reads)).id = some r := by
        show lookup db.nodes o.ID = some r
        rw [hid]; exact hr
      show lookup (upsertRow db.nodes (execArgs o p (env.timeNow db.reads))) id = some r
      rw [upsertRow_of_rejected _ _ r hr2 hrej]
      exact hr
    · show lookup (upsertRow db.nodes (execArgs o p (env.timeNow db.reads))) id = some r
      rw [lookup_upsertRow_other _ _ id (fun e => hid e.symm)]
      exact hr

theorem foldl_writeNode_lookup_of_weak (env : Env) (id : String) (r : Row)
    (hname : r.name ≠ "unknown") (l : List CrawledNode) :
    ∀ db : DB, lookup db.nodes id = some r →
      (∀ o ∈ l, o.ID = id → env.ParseVersionString o.ClientType = none
        ∨ ∃ p, env.ParseVersionString o.ClientType = some p ∧ p.Name = "unknown") →
      lookup (l.foldl (writeNode env) db).nodes id = some r := by
  induction l with
  | nil => intro db hr _; exact hr
  | cons o os ih =>
    intro db hr hweak
    rw [List.foldl_cons]
    apply ih
    · exact writeNode_lookup_of_weak env db o id r hr hname
        (hweak o (List.mem_cons_self o os))
    · intro o2 ho2
      exact hweak o2 (List.mem_cons_of_mem o ho2)

/-- C5: the name-regression guard. If the row stored for a node has a name other than
`"unknown"`, and every observation of that node in a batch has a client string that the
parser rejects or parses to the name `"unknown"`, then after `InsertCrawledNodes` the row
of the node still carries the stored name, whatever else the batch holds. -/
theorem InsertCrawledNodes_keeps_known_name (env : Env) (db : DB)
    (batch : List CrawledNode) (id : String) (r : Row)
    (hr : lookup db.nodes id = some r) (hname : r.name ≠ "unknown")
    (hweak : ∀ o ∈ batch, o.ID = id → env.ParseVersionString o.ClientType = none
      ∨ ∃ p, env.ParseVersionString o.ClientType = some p ∧ p.Name = "unknown") :
    (lookup (InsertCrawledNodes env db batch).nodes id).map Row.name = some r.name := by
  have h := foldl_writeNode_lookup_of_weak env id r hname (sliceStable lessNow batch) db hr
    (fun o ho => hweak o ((sliceStable_perm batch).mem_iff.1 ho))
  unfold InsertCrawledNodes
  rw [h]
  rfl

/-- C5, at a concrete store: the row named `Besu` against a batch holding an observation
with an unparseable client string and one that parses to `"unknown"`. -/
theorem InsertCrawledNodes_keeps_known_name_witness :
    (lookup (InsertCrawledNodes sampleEnv { nodes := [besuRow], reads := 0 }
      [garbledNode, mysteryNode]).nodes "X").map Row.name = some besuRow.name :=
  InsertCrawledNodes_keeps_known_name sampleEnv { nodes := [besuRow], reads := 0 }
    [garbledNode, mysteryNode] "X" besuRow (by decide) (by decide) (by
      intro o ho _
      simp only [List.mem_cons, List.mem_singleton, List.not_mem_nil, or_false] at ho
      rcases ho with rfl | rfl
      · exact Or.inl (by decide)
      · exact Or.inr ⟨unknownInfo, by decide, by decide⟩)

/-- C6, the claim fails: the store holds the row named `Besu` (version 21.7.4, OS `linux`,
last crawled at 500); an observation of the same node parses to the name `"unknown"` with
version 2.0.1 and OS `windows`, and is written when the clock reads 1000. Afterwards the
row has none of the new values: version, OS and `last_crawled` are the stored ones. The
same holds for an observation whose client string does not parse. -/
theorem guarded_update_counterexample :
    sampleEnv.ParseVersionString mysteryNode.ClientType = some unknownInfo
    ∧ unknownInfo.Version.Major = 2 ∧ unknownInfo.Os.Os = "windows"
    ∧ sampleEnv.timeNow 0 = 1000
    ∧ (lookup (InsertCrawledNodes sampleEnv { nodes := [besuRow], reads := 0 }
        [mysteryNode]).nodes "X").map Row.version_major = some 21
    ∧ (lookup (InsertCrawledNodes sampleEnv { nodes := [besuRow], reads := 0 }
        [mysteryNode]).nodes "X").map Row.os_name = some "linux"
    ∧ (lookup (InsertCrawledNodes sampleEnv { nodes := [besuRow], reads := 0 }
        [mysteryNode]).nodes "X").map Row.last_crawled = some 500
    ∧ sampleEnv.ParseVersionString garbledNode.ClientType = none
    ∧ (lookup (InsertCrawledNodes sampleEnv { nodes := [besuRow], reads := 0 }
        [garbledNode]).nodes "X").map Row.last_crawled = some 500 := by
  decide

/-- C6, amended: when the guard keeps the stored name, it keeps the whole row. If the row
stored for a node has a name other than `"unknown"` and an observation of that node has a
client string that the parser rejects or parses to `"unknown"`, then `InsertCrawledNodes`
on that observation leaves the table as it was: the row keeps its version, OS and
`last_crawled` values. -/
theorem InsertCrawledNodes_guard_keeps_row (env : Env) (db : DB) (o : CrawledNode) (r : Row)
    (hr : lookup db.nodes o.ID = some r) (hname : r.name ≠ "unknown")
    (hweak : env.ParseVersionString o.ClientType = none
      ∨ ∃ p, env.ParseVersionString o.ClientType = some p ∧ p.Name = "unknown") :
    (InsertCrawledNodes env db [o]).nodes = db.nodes
    ∧ lookup (InsertCrawledNodes env db [o]).nodes o.ID = some r := by
  have hnodes : (InsertCrawledNodes env db [o]).nodes = db.nodes := by
    rw [InsertCrawledNodes_singleton]
    rcases hweak with h | ⟨p, hp, hunk⟩
    · rw [writeNode_none env db o h]
    · rw [writeNode_some env db o p hp]
      have hrej : updateAllowed r (execArgs o p (env.timeNow db.reads)) = false :=
        updateAllowed_of_unknown r _ hname hunk
      exact upsertRow_of_rejected db.nodes _ r hr hrej
  exact ⟨hnodes, by rw [hnodes]; exact hr⟩

/-- C6, amended, at the concrete store of the counterexample. -/
theorem InsertCrawledNodes_guard_keeps_row_witness :
    (InsertCrawledNodes sampleEnv { nodes := [besuRow], reads := 0 } [mysteryNode]).nodes
      = [besuRow]
    ∧ lookup (InsertCrawledNodes sampleEnv { nodes := [besuRow], reads := 0 }
        [mysteryNode]).nodes mysteryNode.ID = some besuRow :=
  InsertCrawledNodes_guard_keeps_row sampleEnv { nodes := [besuRow], reads := 0 }
    mysteryNode besuRow (by decide) (by decide)
    (Or.inr ⟨unknownInfo, by decide, by decide⟩)

/-! ## Ingesting an observation twice -/

theorem sliceStable_twice (o : CrawledNode) : sliceStable lessNow [o, o] = [o, o] := by
  rw [sliceStable_pair]
  have : lessNow o o = false := by
    unfold lessNow
    rw [(stringsCompare_eq_zero o.Now o.Now).2 rfl]
    rfl
  simp [this]

theorem updateAllowed_execArgs (r : Row) (o : CrawledNode) (p : ParsedInfo) (c d : Int) :
    updateAllowed r (execArgs o p c) = updateAllowed r (execArgs o p d) := rfl

theorem updateAllowed_same_name (o : CrawledNode) (p : ParsedInfo) (c d : Int) :
    updateAllowed (execArgs o p c) (execArgs o p d) = true :=
  (updateAllowed_iff _ _).2 (Or.inl rfl)

/-- C7, the claim fails on `last_crawled`: into an empty store, one ingestion of an
observation writes the row when the clock reads 1000; a second ingestion, as a second call
or as a second copy in the batch, is accepted and rewrites the row when the clock reads
1001, so the two rows differ in `last_crawled`. -/
theorem idempotence_counterexample :
    (lookup (InsertCrawledNodes sampleEnv { nodes := [], reads := 0 }
        [gethNode "1" "DE"]).nodes "X").map Row.last_crawled = some 1000
    ∧ (lookup (InsertCrawledNodes sampleEnv
        (InsertCrawledNodes sampleEnv { nodes := [], reads := 0 } [gethNode "1" "DE"])
        [gethNode "1" "DE"]).nodes "X").map Row.last_crawled = some 1001
    ∧ (lookup (InsertCrawledNodes sampleEnv { nodes := [], reads := 0 }
        [gethNode "1" "DE", gethNode "1" "DE"]).nodes "X").map Row.last_crawled = some 1001
    ∧ lookup (InsertCrawledNodes sampleEnv { nodes := [], reads := 0 }
        [gethNode "1" "DE", gethNode "1" "DE"]).nodes "X"
      ≠ lookup (InsertCrawledNodes sampleEnv { nodes := [], reads := 0 }
        [gethNode "1" "DE"]).nodes "X" := by
  decide

/-- C7, amended: ingestion is idempotent in every column except `last_crawled`. For every
store and observation, two calls of `InsertCrawledNodes` with the observation and one call
with the observation twice in the batch leave the same database, and the row of the
node agrees with the row left by a single ingestion once `last_crawled` is set aside. -/
theorem InsertCrawledNodes_twice (env : Env) (db : DB) (o : CrawledNode) :
    InsertCrawledNodes env (InsertCrawledNodes env db [o]) [o]
      = InsertCrawledNodes env db [o, o]
    ∧ (lookup (InsertCrawledNodes env db [o, o]).nodes o.ID).map withoutLastCrawled
      = (lookup (InsertCrawledNodes env db [o]).nodes o.ID).map withoutLastCrawled := by
  have hrun : InsertCrawledNodes env db [o, o] = writeNode env (writeNode env db o) o := by
    unfold InsertCrawledNodes
    rw [sliceStable_twice]
    rfl
  refine ⟨by rw [hrun]; rfl, ?_⟩
  rw [hrun, InsertCrawledNodes_singleton]
  cases hp : env.ParseVersionString o.ClientType with
  | none => rw [writeNode_none env db o hp, writeNode_none env db o hp]
  | some p =>
    rw [writeNode_some env db o p hp, writeNode_some env _ o p hp]
    show (lookup (upsertRow (upsertRow db.nodes (execArgs o p (env.timeNow db.reads)))
        (execArgs o p (env.timeNow (db.reads + 1))))
        (execArgs o p (env.timeNow (db.reads + 1))).id).map withoutLastCrawled
      = (lookup (upsertRow db.nodes (execArgs o p (env.timeNow db.reads)))
        (execArgs o p (env.timeNow db.reads)).id).map withoutLastCrawled
    rw [lookup_upsertRow_self]
    show (match lookup (upsertRow db.nodes (execArgs o p (env.timeNow db.reads)))
        (execArgs o p (env.timeNow db.reads)).id with
      | none => some (execArgs o p (env.timeNow (db.reads + 1)))
      | some r => if updateAllowed r (execArgs o p (env.timeNow (db.reads + 1))) = true
          then some (execArgs o p (env.timeNow (db.reads + 1))) else some r).map
        withoutLastCrawled = _
    rw [lookup_upsertRow_self]
    cases lookup db.nodes (execArgs o p (env.timeNow db.reads)).id with
    | none =>
      simp only [updateAllowed_same_name, if_true, Option.map_some']
      rfl
    | some r =>
      cases hu : updateAllowed r (execArgs o p (env.timeNow db.reads)) with
      | true =>
        simp only [hu, if_true, updateAllowed_same_name, Option.map_some']
        rfl
      | false =>
        have hu2 : updateAllowed r (execArgs o p (env.timeNow (db.reads + 1))) = false :=
          (updateAllowed_execArgs r o p _ _).trans hu
        simp [hu, hu2]

/-! ## Eviction -/

theorem negDuration_eq (d : Int) (hlo : -(2 ^ 63) < d) (hhi : d < 2 ^ 63) :
    negDuration d = -d := by
  unfold negDuration wrapInt64
  norm_num at hlo hhi ⊢
  omega

/-- Where the texts of the stored times and of `now - d` are ordered as the times are, and
the negation of the window `d` is representable, `DropOldNodes` keeps exactly the rows
with `last_crawled ≥ now - d`, the row at `now - d` included. -/
theorem DropOldNodes_of_ordered_text (env : Env) (db : DB) (d : Int)
    (hlo : -(2 ^ 63) < d) (hhi : d < 2 ^ 63)
    (hord : ∀ r ∈ db.nodes,
      (stringsCompare (env.timeText r.last_crawled)
          (env.timeText (env.timeNow db.reads - d)) < 0
        ↔ r.last_crawled < env.timeNow db.reads - d)) :
    (DropOldNodes env db d).nodes
      = db.nodes.filter (fun r => decide (env.timeNow db.reads - d ≤ r.last_crawled)) := by
  unfold DropOldNodes deleteOlder timeAdd
  rw [negDuration_eq d hlo hhi]
  have hsub : env.timeNow db.reads + -d = env.timeNow db.reads - d := by omega
  rw [hsub]
  apply List.filter_congr
  intro r hr
  by_cases h : env.timeNow db.reads - d ≤ r.last_crawled
  · have h2 : ¬ stringsCompare (env.timeText r.last_crawled)
        (env.timeText (env.timeNow db.reads - d)) < 0 := by
      rw [hord r hr]; omega
    simp [h, h2]
  · have h2 : stringsCompare (env.timeText r.last_crawled)
        (env.timeText (env.timeNow db.reads - d)) < 0 := by
      rw [hord r hr]; omega
    simp [h, h2]

/-- The previous statement at a concrete store: decimal texts, the clock reads 1000 and the
window is 500; the row last crawled at exactly 500 is kept, the one at 499 is dropped. -/
theorem DropOldNodes_of_ordered_text_witness :
    (DropOldNodes sampleEnv
        { nodes := [besuRow, { besuRow with id := "Y", last_crawled := 499 }], reads := 0 }
        500).nodes
      = [besuRow, { besuRow with id := "Y", last_crawled := 499 }].filter
          (fun r => decide (sampleEnv.timeNow 0 - 500 ≤ r.last_crawled)) :=
  DropOldNodes_of_ordered_text sampleEnv
    { nodes := [besuRow, { besuRow with id := "Y", last_crawled := 499 }], reads := 0 }
    500 (by norm_num) (by norm_num) (by decide)

/-- C8, the code at a clock change: the store holds a row last crawled at 01:30:00.001 UTC
and a row last crawled at 00:50:00.5 UTC, and the retention window is one hour.
Called at 01:30:00.004 UTC, `DropOldNodes` deletes the first row, which is 3 ms old: its
text reads `02:30:00.001 +0100` and the text of the limit reads `02:30:00.004 +0200`.
Called at 02:10:00.25 UTC, it keeps the second row, nearly 80 minutes old: its text reads
`02:50:00.5 +0200` and the text of the limit reads `02:10:00.25 +0100`. By time the first
row is inside the window and the second outside. Also, for the least `int64` window the
negation wraps, so the limit lies `2 ^ 63` ns before the clock reading, not after it. -/
theorem DropOldNodes_at_clock_change :
    (DropOldNodes berlinEnv { nodes := [freshRow, staleRow], reads := 0 } oneHour).nodes
      = [staleRow]
    ∧ berlinEnv.timeNow 0 - oneHour ≤ freshRow.last_crawled
    ∧ berlinEnv.timeNow 0 - freshRow.last_crawled = 3000000
    ∧ (DropOldNodes berlinEnv { nodes := [freshRow, staleRow], reads := 1 } oneHour).nodes
      = [freshRow, staleRow]
    ∧ staleRow.last_crawled < berlinEnv.timeNow 1 - oneHour
    ∧ berlinEnv.timeNow 1 - staleRow.last_crawled = 80 * 60 * 1000000000 - 250000000
    ∧ timeAdd (berlinEnv.timeNow 0) (negDuration (-(2 ^ 63)))
      = berlinEnv.timeNow 0 - 2 ^ 63 := by
  decide

/-! ## One row per key -/

theorem nodup_ids_upsertRow (t : List Row) (n : Row) (h : (t.map Row.id).Nodup) :
    ((upsertRow t n).map Row.id).Nodup := by
  rw [ids_upsertRow]
  split_ifs with hmem
  · exact h
  · exact List.Nodup.append h (List.nodup_singleton _)
      (by
        intro a ha hb
        rw [List.mem_singleton] at hb
        exact hmem (hb ▸ ha))

theorem mem_ids_upsertRow (t : List Row) (n : Row) : n.id ∈ (upsertRow t n).map Row.id := by
  rw [ids_upsertRow]
  split_ifs with hmem
  · exact hmem
  · simp

theorem ids_subset_upsertRow (t : List Row) (n : Row) (x : String)
    (hx : x ∈ t.map Row.id) : x ∈ (upsertRow t n).map Row.id := by
  rw [ids_upsertRow]
  split_ifs
  · exact hx
  · exact List.mem_append_left _ hx

theorem nodup_ids_writeNode (env : Env) (db : DB) (o : CrawledNode)
    (h : (db.nodes.map Row.id).Nodup) : ((writeNode env db o).nodes.map Row.id).Nodup := by
  unfold writeNode
  cases env.ParseVersionString o.ClientType with
  | none => exact h
  | some p => exact nodup_ids_upsertRow _ _ h

theorem ids_subset_writeNode (env : Env) (db : DB) (o : CrawledNode) (x : String)
    (hx : x ∈ db.nodes.map Row.id) : x ∈ (writeNode env db o).nodes.map Row.id := by
  unfold writeNode
  cases env.ParseVersionString o.ClientType with
  | none => exact hx
  | some p => exact ids_subset_upsertRow _ _ x hx

theorem nodup_ids_foldl (env : Env) (l : List CrawledNode) :
    ∀ db : DB, (db.nodes.map Row.id).Nodup →
      ((l.foldl (writeNode env) db).nodes.map Row.id).Nodup := by
  induction l with
  | nil => intro db h; exact h
  | cons o os ih => intro db h; exact ih _ (nodup_ids_writeNode env db o h)

theorem ids_subset_foldl (env : Env) (l : List CrawledNode) (x : String) :
    ∀ db : DB, x ∈ db.nodes.map Row.id → x ∈ (l.foldl (writeNode env) db).nodes.map Row.id := by
  induction l with
  | nil => intro db h; exact h
  | cons o os ih => intro db h; exact ih _ (ids_subset_writeNode env db o x h)

theorem mem_ids_foldl (env : Env) (l : List CrawledNode) (x : String) :
    ∀ db : DB,
      (∃ o ∈ l, o.ID = x ∧ (env.ParseVersionString o.ClientType).isSome = true) →
      x ∈ (l.foldl (writeNode env) db).nodes.map Row.id := by
  induction l with
  | nil => intro db h; obtain ⟨o, ho, _⟩ := h; exact absurd ho (List.not_mem_nil o)
  | cons a as ih =>
    intro db h
    obtain ⟨o, ho, hid, hsome⟩ := h
    rw [List.foldl_cons]
    rcases List.mem_cons.1 ho with rfl | hin
    · apply ids_subset_foldl
      obtain ⟨p, hp⟩ := Option.isSome_iff_exists.1 hsome
      rw [writeNode_some env db o p hp, ← hid]
      exact mem_ids_upsertRow db.nodes (execArgs o p (env.timeNow db.reads))
    · exact ih _ ⟨o, hin, hid, hsome⟩

theorem nodup_ids_InsertCrawledNodes (env : Env) (db : DB) (batch : List CrawledNode)
    (h : (db.nodes.map Row.id).Nodup) :
    ((InsertCrawledNodes env db batch).nodes.map Row.id).Nodup :=
  nodup_ids_foldl env _ db h

theorem nodup_ids_DropOldNodes (env : Env) (db : DB) (d : Int)
    (h : (db.nodes.map Row.id).Nodup) : ((DropOldNodes env db d).nodes.map Row.id).Nodup :=
  List.Nodup.sublist ((List.filter_sublist db.nodes).map Row.id) h

theorem nodup_ids_runOps (env : Env) (ops : List StoreOp) :
    ∀ db : DB, (db.nodes.map Row.id).Nodup → ((runOps env db ops).nodes.map Row.id).Nodup := by
  induction ops with
  | nil => intro db h; exact h
  | cons op rest ih =>
    intro db h
    apply ih
    cases op with
    | insert batch => exact nodup_ids_InsertCrawledNodes env db batch h
    | dropOld d => exact nodup_ids_DropOldNodes env db d h

theorem length_filter_id (t : List Row) (x : String) :
    (t.filter (fun r => decide (r.id = x))).length = (t.map Row.id).count x := by
  induction t with
  | nil => rfl
  | cons r rs ih =>
    by_cases h : r.id = x
    · simp [List.filter_cons, h, ih]
    · simp [List.filter_cons, h, ih, List.count_cons]

/-- C9: one row per identity. Starting from the table emptied by `CreateDB`, after any
sequence of `InsertCrawledNodes` and `DropOldNodes` calls no two rows share an `id`; the
same holds after one more `InsertCrawledNodes`, and if some observation of node `x` in that
batch has a client string that parses, the table then holds exactly one row for `x`,
however many observations of `x` the batch contains. -/
theorem store_one_row_per_id (env : Env) (db0 : DB) (ops : List StoreOp)
    (batch : List CrawledNode) (x : String)
    (hx : ∃ o ∈ batch, o.ID = x ∧ (env.ParseVersionString o.ClientType).isSome = true) :
    ((runOps env (CreateDB db0) ops).nodes.map Row.id).Nodup
    ∧ ((InsertCrawledNodes env (runOps env (CreateDB db0) ops) batch).nodes.map Row.id).Nodup
    ∧ ((InsertCrawledNodes env (runOps env (CreateDB db0) ops) batch).nodes.filter
        (fun r => decide (r.id = x))).length = 1 := by
  have h0 : ((runOps env (CreateDB db0) ops).nodes.map Row.id).Nodup :=
    nodup_ids_runOps env ops (CreateDB db0) List.nodup_nil
  have h1 := nodup_ids_InsertCrawledNodes env _ batch h0
  refine ⟨h0, h1, ?_⟩
  rw [length_filter_id]
  apply List.count_eq_one_of_mem h1
  apply mem_ids_foldl
  obtain ⟨o, ho, hid, hsome⟩ := hx
  exact ⟨o, (sliceStable_perm batch).mem_iff.2 ho, hid, hsome⟩

/-- C9, at a concrete history: two ingestions and an eviction, then a batch with three
observations of node `X`, two of which parse. -/
theorem store_one_row_per_id_witness :
    ((runOps sampleEnv (CreateDB { nodes := [besuRow], reads := 0 })
        [StoreOp.insert [gethNode "1" "DE"], StoreOp.dropOld 10,
          StoreOp.insert [mysteryNode]]).nodes.map Row.id).Nodup
    ∧ ((InsertCrawledNodes sampleEnv
        (runOps sampleEnv (CreateDB { nodes := [besuRow], reads := 0 })
          [StoreOp.insert [gethNode "1" "DE"], StoreOp.dropOld 10,
            StoreOp.insert [mysteryNode]])
        [gethNode "2" "US", garbledNode, gethNode "3" "FR"]).nodes.map Row.id).Nodup
    ∧ ((InsertCrawledNodes sampleEnv
        (runOps sampleEnv (CreateDB { nodes := [besuRow], reads := 0 })
          [StoreOp.insert [gethNode "1" "DE"], StoreOp.dropOld 10,
            StoreOp.insert [mysteryNode]])
        [gethNode "2" "US", garbledNode, gethNode "3" "FR"]).nodes.filter
          (fun r => decide (r.id = "X"))).length = 1 :=
  store_one_row_per_id sampleEnv { nodes := [besuRow], reads := 0 }
    [StoreOp.insert [gethNode "1" "DE"], StoreOp.dropOld 10, StoreOp.insert [mysteryNode]]
    [gethNode "2" "US", garbledNode, gethNode "3" "FR"] "X"
    ⟨gethNode "2" "US", by decide, rfl, by decide⟩

/-! ## The crawl loop -/

theorem crawlLoopBody_inputSet {NodeSet : Type} (CrawlRound : Nat → NodeSet → NodeSet)
    (nodesFile : String) (st : CrawlState NodeSet) :
    (crawlLoopBody CrawlRound nodesFile st).inputSet = st.inputSet := rfl

/-- Every call of `CrawlRound` made by the loop of `crawlNodes` is passed the set computed
before the loop; the set a round returns only goes to the nodes file. -/
theorem crawlNodes_passes_loaded_set {NodeSet : Type} (CrawlRound : Nat → NodeSet → NodeSet)
    (nilSet : NodeSet) (nodesFile : String) (nodesFileContent : Option NodeSet)
    (rounds : Nat) :
    (crawlNodes CrawlRound nilSet nodesFile nodesFileContent rounds).inputSet
      = loadInputSet nilSet nodesFile nodesFileContent
    ∧ (crawlNodes CrawlRound nilSet nodesFile nodesFileContent rounds).calls.length = rounds
    ∧ ∀ c ∈ (crawlNodes CrawlRound nilSet nodesFile nodesFileContent rounds).calls,
        c.1 = loadInputSet nilSet nodesFile nodesFileContent := by
  induction rounds with
  | zero => exact ⟨rfl, rfl, fun c hc => absurd hc (List.not_mem_nil c)⟩
  | succ k ih =>
    obtain ⟨hin, hlen, hall⟩ := ih
    have hstep : crawlNodes CrawlRound nilSet nodesFile nodesFileContent (k + 1)
        = crawlLoopBody CrawlRound nodesFile
            (crawlNodes CrawlRound nilSet nodesFile nodesFileContent k) := by
      unfold crawlNodes
      rw [Function.iterate_succ_apply']
    rw [hstep]
    refine ⟨hin, ?_, ?_⟩
    · simp [crawlLoopBody, hlen]
    · intro c hc
      simp only [crawlLoopBody, List.mem_append, List.mem_singleton] at hc
      rcases hc with hc | rfl
      · exact hall c hc
      · exact hin

/-- C10, the code at a concrete run: the nodes file holds the set `[1]`, and every round
surfaces one new peer. The first round is passed `[1]` and returns `[1, 2]`; the second
round is passed `[1]` again, not `[1, 2]`, and the new peer `2` is not in its input. The
updated set only reaches the nodes file. Without a nodes file every round is passed the
empty set. -/
theorem crawlNodes_second_round_input :
    (crawlNodes sampleRound [] "nodes.json" (some [1]) 2).calls
      = [([1], [1, 2]), ([1], [1, 3])]
    ∧ (crawlNodes sampleRound [] "nodes.json" (some [1]) 2).calls.map Prod.fst
      ≠ [[1], [1, 2]]
    ∧ (crawlNodes sampleRound [] "nodes.json" (some [1]) 1).nodesFileContent
      = some [1, 2]
    ∧ (crawlNodes sampleRound [] "" none 2).calls = [([], [2]), ([], [3])] := by
  decide

end NodeCrawler
